import Mathlib

/-!
Verification development for the `rng-query` interpreter (crate `rng-query`).

The Rust sources are shallowly embedded below.  Modelling conventions:

* The pseudorandom source `rand_pcg::Pcg64` is an external dependency; it is
  modelled by `Pcg`, a concrete deterministic generator (a 64-bit LCG carried
  as a `Nat` reduced mod `2 ^ 64`).  The `rand` crate adaptors used by the
  code (`gen_range`, `gen::<bool>`, `shuffle`, `choose`, `choose_multiple`,
  the float distributions) are modelled as deterministic functions of a `Pcg`
  state.  Distributional (uniformity) facts about these external adaptors are
  outside the model; everything proved here is about the repository's own
  logic layered on top of them.
* Machine integers: `u16`/`u32` values are `Nat`s whose parsers enforce the
  Rust overflow checks (`> 65535`, `> 4294967295` fail); the interval code's
  `i32` is an `Int` with the source's explicit `checked_add` overflow tests
  against `2147483647` modelled exactly.  Sums of die values into the `i32`
  total are modelled as unbounded `Int` arithmetic.
* Rust `f32` bounds of float intervals are modelled as exact rationals; no
  claim below concerns float-specific semantics.
* String positions in tokenizer errors count characters (the inputs of the
  claims are ASCII, where this coincides with Rust's byte offsets).
-/

namespace RngQuery

/-! ## The pseudorandom source (external model of `rand_pcg::Pcg64`) -/

/-- Deterministic model of the externally-owned PRNG state. -/
structure Pcg where
  state : Nat
  deriving Repr, DecidableEq

/-- One step of the modelled generator: a 64-bit LCG; the output is the upper
bits of the new state. -/
def Pcg.next (g : Pcg) : Nat × Pcg :=
  let s := (6364136223846793005 * g.state + 1442695040888963407) % 2 ^ 64
  (s / 2 ^ 32, ⟨s⟩)

/-- Models `Pcg64::seed_from_u64`. -/
def Pcg.seedFromU64 (seed : Nat) : Pcg := ⟨seed % 2 ^ 64⟩

/-- Models `rng.gen_range(lo..=hi)` on integers: a value in `[lo, hi]`
(for `lo ≤ hi`). -/
def Pcg.genRangeNat (lo hi : Nat) (g : Pcg) : Nat × Pcg :=
  let (x, g') := g.next
  (lo + x % (hi + 1 - lo), g')

/-- Models `rng.gen_range(lo..hi)` on `i32`: a value in `[lo, hi)`
(for `lo < hi`). -/
def Pcg.genRangeInt (lo hi : Int) (g : Pcg) : Int × Pcg :=
  let (x, g') := g.next
  (lo + (x : Int) % (hi - lo), g')

/-- Models `rng.gen::<bool>()`. -/
def Pcg.genBool (g : Pcg) : Bool × Pcg :=
  let (x, g') := g.next
  (x % 2 == 1, g')

/-- Models a draw from a uniform unit-interval float distribution as an exact
rational in `[0, 1)`. -/
def Pcg.genUnit (g : Pcg) : Rat × Pcg :=
  let (x, g') := g.next
  ((x % 2 ^ 24 : Nat) / (2 ^ 24 : Rat), g')

theorem Pcg.genRangeNat_bounds (lo hi : Nat) (g : Pcg) (h : lo ≤ hi) :
    lo ≤ (Pcg.genRangeNat lo hi g).1 ∧ (Pcg.genRangeNat lo hi g).1 ≤ hi := by
  have hfst : (Pcg.genRangeNat lo hi g).1 = lo + g.next.1 % (hi + 1 - lo) := rfl
  rw [hfst]
  constructor
  · exact Nat.le_add_right _ _
  · have hpos : 0 < hi + 1 - lo := by omega
    have := Nat.mod_lt (g.next).1 hpos
    omega

/-! ## External `rand` adaptors over slices, modelled on lists -/

/-- Models `rand::seq::SliceRandom::choose`: a uniform index draw. -/
def chooseOne {α : Type} (g : Pcg) (l : List α) : Option α × Pcg :=
  if l.isEmpty then (none, g)
  else
    let (j, g') := Pcg.genRangeNat 0 (l.length - 1) g
    (l.get? j, g')

/-- Core of the modelled `shuffle`: repeatedly draw an element and move it to
the front, recursing on the rest.  `fuel` is the list length at the top call. -/
def shuffleGo {α : Type} [DecidableEq α] : Nat → Pcg → List α → List α × Pcg
  | 0, g, l => (l, g)
  | fuel + 1, g, l =>
    if l.isEmpty then (l, g)
    else
      let (j, g') := Pcg.genRangeNat 0 (l.length - 1) g
      match l.get? j with
      | none => (l, g')
      | some x =>
        let (rest, g'') := shuffleGo fuel g' (l.erase x)
        (x :: rest, g'')

/-- Models `rand::seq::SliceRandom::shuffle`. -/
def shuffleList {α : Type} [DecidableEq α] (g : Pcg) (l : List α) : List α × Pcg :=
  shuffleGo l.length g l

theorem shuffleGo_perm {α : Type} [DecidableEq α] :
    ∀ (fuel : Nat) (g : Pcg) (l : List α), (shuffleGo fuel g l).1.Perm l := by
  intro fuel
  induction fuel with
  | zero => intro g l; exact List.Perm.refl l
  | succ n ih =>
    intro g l
    by_cases hl : l.isEmpty
    · simp [shuffleGo, hl]
    · simp only [shuffleGo, hl, if_false]
      cases hj : l.get? (Pcg.genRangeNat 0 (l.length - 1) g).1 with
      | none => exact List.Perm.refl l
      | some x =>
        have hx : x ∈ l := List.get?_mem hj
        simp only
        have h1 : (x :: (shuffleGo n (Pcg.genRangeNat 0 (l.length - 1) g).2 (l.erase x)).1).Perm
            (x :: l.erase x) := List.Perm.cons x (ih _ _)
        exact h1.trans (List.perm_cons_erase hx).symm

/-- Models `shuffle` preserving the elements: the result is a permutation of
the input. -/
theorem shuffleList_perm {α : Type} [DecidableEq α] (g : Pcg) (l : List α) :
    (shuffleList g l).1.Perm l :=
  shuffleGo_perm l.length g l

/-- Models `rand::seq::SliceRandom::choose_multiple`: a without-replacement
sample of `min n (l.length)` elements. -/
def chooseMultiple {α : Type} [DecidableEq α] : Pcg → List α → Nat → List α × Pcg
  | g, _, 0 => ([], g)
  | g, l, n + 1 =>
    if l.isEmpty then ([], g)
    else
      let (j, g') := Pcg.genRangeNat 0 (l.length - 1) g
      match l.get? j with
      | none => ([], g')
      | some x =>
        let (rest, g'') := chooseMultiple g' (l.erase x) n
        (x :: rest, g'')

/-- Models the with-replacement draw loop (`for _ in 0..n { entries.choose... }`). -/
def chooseRepeat {α : Type} (g : Pcg) (l : List α) : Nat → List α × Pcg
  | 0 => ([], g)
  | n + 1 =>
    let (x?, g') := chooseOne g l
    let (rest, g'') := chooseRepeat g' l n
    match x? with
    | some x => (x :: rest, g'')
    | none => (rest, g'')

/-! ## Separators and the tokenizer (`src/parse.rs`) -/

/-- `Separators` of `src/lib.rs`. -/
structure Separators where
  stmt : Char
  entry : Char
  options : Char
  deriving Repr, DecidableEq

/-- `Separators::default()`. -/
def Separators.default : Separators := ⟨';', ',', '/'⟩

/-- `Nest` of `src/parse.rs`. -/
inductive Nest
  | Paren
  | Square
  | Curly
  deriving Repr, DecidableEq

/-- `Nest::from_char` (the source panics on other characters; call sites only
pass the six bracket characters). -/
def Nest.fromChar (c : Char) : Nest :=
  if c = '(' ∨ c = ')' then .Paren
  else if c = '[' ∨ c = ']' then .Square
  else .Curly

/-- `Nest::repr`. -/
def Nest.reprStr : Nest → String
  | .Paren => "parenthesis"
  | .Square => "square brackets"
  | .Curly => "curly braces"

/-- `Nest::matches`: square and round brackets are mutually interchangeable,
curly braces only match curly braces. -/
def Nest.matches (self other : Nest) : Bool :=
  if self = other then true
  else
    match self with
    | .Paren | .Square =>
      match other with
      | .Paren | .Square => true
      | _ => false
    | _ => false

/-- `QueryPart` of `src/parse.rs`. -/
inductive QueryPart
  | entry (s : String)
  | options (s : String)
  | endStmt
  deriving Repr, DecidableEq

/-- `SplitPartsError` of `src/parse.rs`. -/
inductive SplitPartsError
  | UnclosedString (start : Nat)
  | UnbalancedNesting (problem : Nat) (what : String)
  deriving Repr, DecidableEq

/-- The whitespace class of Rust's `char::is_whitespace` / regex `\s`,
restricted to ASCII (all inputs of interest are ASCII). -/
def isWs (c : Char) : Bool :=
  c == ' ' || c == '\t' || c == '\n' || c == '\x0d' || c == '\x0b' || c == '\x0c'

/-- Drop the longest suffix whose characters satisfy `p`. -/
def dropWhileEnd (p : Char → Bool) (l : List Char) : List Char :=
  (l.reverse.dropWhile p).reverse

/-- Rust `str::trim` on a character list. -/
def trimWsChars (l : List Char) : List Char :=
  dropWhileEnd isWs (l.dropWhile isWs)

/-- Rust `str::trim_matches(c)` on a character list. -/
def trimMatchesChar (c : Char) (l : List Char) : List Char :=
  dropWhileEnd (fun x => x == c) (l.dropWhile (fun x => x == c))

/-- `trim_entry` of `src/parse.rs`: drop trailing separators, trim whitespace,
and unwrap a whole doubly-quoted string with no interior quotes. -/
def trimEntry (cs : List Char) (sep : Char) : List Char :=
  let t := trimWsChars (dropWhileEnd (fun x => x == sep) cs)
  if t.head? = some '"' ∧ t.getLast? = some '"' ∧ t.count '"' = 2 then
    trimWsChars (trimMatchesChar '"' t)
  else t

/-- `consume_options`' slice clean-up: drop the trailing statement separator
and trim. -/
def optsTrim (sep : Separators) (cs : List Char) : List Char :=
  trimWsChars (dropWhileEnd (fun x => x == sep.stmt) cs)

/-- The scanning mode of `SplitParts`, with the state the Rust iterator keeps
in locals: the accumulated slice since `last_end` and the nesting stack
(head = top). -/
inductive SMode
  | entryScan (acc : List Char) (stack : List Nest)
  | inString (acc : List Char) (stack : List Nest)
  | optsScan (acc : List Char)

/-- The tokenizer loop of `SplitParts` (`next_entry`, `consume_string`,
`consume_options` and the mode dance of `Iterator::next`), flattened into one
left-to-right scan.  `pos` counts consumed characters; emission stops at the
first error exactly as `split_line_parts` fuses the iterator. -/
def splitGo (sep : Separators) : SMode → List Char → Nat →
    List (Except SplitPartsError QueryPart)
  | .entryScan acc stack, [], pos =>
    match stack with
    | n :: _ => [.error (.UnbalancedNesting pos n.reprStr)]
    | [] =>
      if acc.isEmpty then []
      else [.ok (.entry (String.mk (trimEntry acc sep.entry)))]
  | .entryScan acc stack, c :: rest, pos =>
    if c = '"' then
      splitGo sep (.inString (acc ++ [c]) stack) rest (pos + 1)
    else if c = '(' ∨ c = '[' ∨ c = '{' then
      splitGo sep (.entryScan (acc ++ [c]) (Nest.fromChar c :: stack)) rest (pos + 1)
    else if c = ')' ∨ c = ']' ∨ c = '}' then
      match stack with
      | pending :: stack' =>
        if pending.matches (Nest.fromChar c) then
          splitGo sep (.entryScan (acc ++ [c]) stack') rest (pos + 1)
        else [.error (.UnbalancedNesting (pos + 1) pending.reprStr)]
      | [] => [.error (.UnbalancedNesting (pos + 1) (Nest.fromChar c).reprStr)]
    else if c = sep.entry ∧ stack.isEmpty then
      .ok (.entry (String.mk (trimEntry (acc ++ [c]) c))) ::
        splitGo sep (.entryScan [] []) rest (pos + 1)
    else if c = sep.options ∧ stack.isEmpty then
      let e := trimEntry (acc ++ [c]) c
      (if e.isEmpty then [] else [.ok (.entry (String.mk e))]) ++
        splitGo sep (.optsScan []) rest (pos + 1)
    else if c = sep.stmt ∧ stack.isEmpty then
      let e := trimEntry (acc ++ [c]) c
      (if e.isEmpty then [] else [.ok (.entry (String.mk e))]) ++
        (.ok .endStmt :: splitGo sep (.entryScan [] []) rest (pos + 1))
    else
      splitGo sep (.entryScan (acc ++ [c]) stack) rest (pos + 1)
  | .inString _ _, [], pos => [.error (.UnclosedString pos)]
  | .inString acc stack, c :: rest, pos =>
    if c = '"' then splitGo sep (.entryScan (acc ++ [c]) stack) rest (pos + 1)
    else splitGo sep (.inString (acc ++ [c]) stack) rest (pos + 1)
  | .optsScan acc, [], _ => [.ok (.options (String.mk (optsTrim sep acc)))]
  | .optsScan acc, c :: rest, pos =>
    if c = sep.stmt then
      .ok (.options (String.mk (optsTrim sep (acc ++ [c])))) ::
        .ok .endStmt :: splitGo sep (.entryScan [] []) rest (pos + 1)
    else splitGo sep (.optsScan (acc ++ [c])) rest (pos + 1)

/-- `split_line_parts` of `src/parse.rs`. -/
def splitLineParts (sep : Separators) (line : String) :
    List (Except SplitPartsError QueryPart) :=
  splitGo sep (.entryScan [] []) line.data 0

/-! ## Errors (`Error` of `src/lib.rs`) -/

/-- `Error` of `src/lib.rs`. -/
inductive Error
  | Options (msg : String)
  | Expr (msg : String)
  | SplitError (e : SplitPartsError)
  deriving Repr, DecidableEq

/-- True on the `Err` side of a `Result`. -/
def exceptIsError {ε α : Type} : Except ε α → Bool
  | .error _ => true
  | .ok _ => false

instance {ε α : Type} [DecidableEq ε] [DecidableEq α] : DecidableEq (Except ε α)
  | .error a, .error b =>
    if h : a = b then .isTrue (h ▸ rfl)
    else .isFalse (fun hh => h (Except.error.inj hh))
  | .error _, .ok _ => .isFalse (fun hh => Except.noConfusion hh)
  | .ok _, .error _ => .isFalse (fun hh => Except.noConfusion hh)
  | .ok a, .ok b =>
    if h : a = b then .isTrue (h ▸ rfl)
    else .isFalse (fun hh => h (Except.ok.inj hh))

/-! ## The options grammar (`Options::from_str` of `src/lib.rs`) -/

/-- `Amount` of `src/lib.rs`. -/
inductive Amount
  | All
  | N (n : Nat)
  deriving Repr, DecidableEq

/-- `EvalExpr` of `src/lib.rs`. -/
inductive EvalExpr
  | Auto
  | Custom (b : Bool)
  deriving Repr, DecidableEq

/-- `Options` of `src/lib.rs`. -/
structure Options where
  amount : Amount
  repeating : Bool
  eval_expr : EvalExpr
  keep_order : Bool
  push : Bool
  deriving Repr, DecidableEq

/-- `Options::default()`. -/
def Options.default : Options :=
  ⟨.N 1, false, .Auto, false, false⟩

/-- A digit `1`-`9`. -/
def isNonZeroDigit (c : Char) : Bool :=
  c.isDigit && c != '0'

/-- The flag character class of the options regex, `[reEop]` (the `\s` part of
the class is handled separately). -/
def isFlagChar (c : Char) : Bool :=
  c == 'r' || c == 'e' || c == 'E' || c == 'o' || c == 'p'

/-- The match of the options regex
`\A(all\s|0|(?:[1-9][0-9]*))?\s*([\sreEop]*)\z`: group 1 (the amount token,
trailing whitespace of the `all\s` branch included) and group 2 (the flags).
The alternation and the greedy quantifiers are deterministic here: a shorter
amount match leaves a character no later part of the pattern accepts. -/
def optRegexMatch (cs : List Char) : Option (Option (List Char) × List Char) :=
  let (amt, rest) :=
    match cs with
    | 'a' :: 'l' :: 'l' :: w :: rest =>
      if isWs w then (some ['a', 'l', 'l', w], rest)
      else (none, cs)
    | '0' :: rest => (some ['0'], rest)
    | c :: _ =>
      if isNonZeroDigit c then
        (some (cs.takeWhile Char.isDigit), cs.dropWhile Char.isDigit)
      else (none, cs)
    | [] => (none, cs)
  let flags := rest.dropWhile isWs
  if flags.all (fun c => isWs c || isFlagChar c) then some (amt, flags)
  else none

/-- Rust's `u32::from_str` on an already-validated digit string: the value,
or an overflow failure. -/
def parseU32 (ds : List Char) : Except String Nat :=
  let v := ds.foldl (fun a c => a * 10 + (c.toNat - 48)) 0
  if v > 4294967295 then .error "number too large to fit in target type"
  else .ok v

/-- Rust `Vec::dedup`: collapse consecutive equal elements. -/
def rustDedup {α : Type} [DecidableEq α] : List α → List α
  | [] => []
  | [a] => [a]
  | a :: b :: t => if a = b then rustDedup (b :: t) else a :: rustDedup (b :: t)

/-- The non-whitespace flag characters the code collects from group 2. -/
def flagsOfMatch (m : Option (Option (List Char) × List Char)) : List Char :=
  match m with
  | some (_, flags) => flags.filter (fun c => !isWs c)
  | none => []

/-- The flag characters `Options::from_str` collects for a given input (empty
when the regex does not match). -/
def flagsOf (s : String) : List Char :=
  flagsOfMatch (optRegexMatch s.data)

/-- The amount semantics of `Options::from_str`: the trimmed capture `all`
means `All`, otherwise Rust's `u32` parse. -/
def parseOptAmount : Option (List Char) → Except Error Amount
  | none => .ok (.N 1)
  | some aw =>
    if dropWhileEnd isWs aw = "all".data then .ok .All
    else
      match parseU32 aw with
      | .ok n => .ok (.N n)
      | .error e => .error (.Options ("Bad amount: " ++ e))

/-- The flag processing of `Options::from_str`: collect the non-whitespace
characters of group 2, sort, `dedup`, reject any shrinkage as duplicate
flags, reject `e` together with `E`, and read the flag booleans. -/
def processFlags (amount : Amount) (flagsRaw : List Char) : Except Error Options :=
  let flags := flagsRaw.filter (fun c => !isWs c)
  let sorted := flags.insertionSort (· ≤ ·)
  let deduped := rustDedup sorted
  if sorted.length ≠ deduped.length then
    .error (.Options ("Duplicate flags: " ++ String.mk deduped))
  else if deduped.contains 'e' && deduped.contains 'E' then
    .error (.Options "Flags \x27e\x27 and \x27E\x27 are incompatible")
  else
    .ok { amount,
          repeating := deduped.contains 'r',
          keep_order := deduped.contains 'o',
          push := deduped.contains 'p',
          eval_expr :=
            if deduped.contains 'e' || deduped.contains 'E' then
              .Custom (deduped.contains 'e')
            else .Auto }

/-- `Options::from_str` of `src/lib.rs`: presets first, then the regex, the
amount, and the flag checks. -/
def Options.fromStr (s : String) : Except Error Options :=
  if s = "shuffle" then .ok { Options.default with amount := .All, eval_expr := .Custom false }
  else if s = "list" then
    .ok { Options.default with amount := .All, eval_expr := .Custom false, keep_order := true }
  else if s = "eval" then
    .ok { Options.default with amount := .All, eval_expr := .Custom true, keep_order := true }
  else
    match optRegexMatch s.data with
    | none => .error (.Options ("Bad options: " ++ s))
    | some (amtTok, flagsRaw) =>
      match parseOptAmount amtTok with
      | .error e => .error e
      | .ok amount => processFlags amount flagsRaw

/-! ## Dice (`src/dice.rs`) -/

/-- `SelectAction` of `src/dice.rs`. -/
inductive SelectAction
  | Keep
  | Drop
  deriving Repr, DecidableEq

/-- `SelectWhich` of `src/dice.rs`. -/
inductive SelectWhich
  | High
  | Low
  deriving Repr, DecidableEq

/-- `SelectDice` of `src/dice.rs`. -/
structure SelectDice where
  amount : Nat
  action : SelectAction
  which : SelectWhich
  deriving Repr, DecidableEq

/-- `Roll` of `src/dice.rs` (`amount`, `sides` are `u16`; `modifier` is `i32`). -/
structure Roll where
  amount : Nat
  sides : Nat
  exploding : Bool
  select : Option SelectDice
  modifier : Int
  deriving Repr, DecidableEq

/-- `RollParseError` of `src/dice.rs`. -/
inductive RollParseError
  | NoMatch
  | Invalid (msg : String)
  deriving Repr, DecidableEq

/-- The `(\d+|%)` sides token of the dice regex. -/
inductive SidesTok
  | percent
  | num (ds : List Char)
  deriving Repr, DecidableEq

/-- The modifier tail `((?:[+-]\d+)+)?\z` of the dice regex: split the rest
into sign-and-digits groups.  `fuel` bounds the recursion; a start value above
the list length never runs out since every group consumes its sign. -/
def takeMods : Nat → List Char → Option (List (Char × List Char) × List Char)
  | _, [] => some ([], [])
  | 0, _ => none
  | fuel + 1, c :: cs' =>
    if c = '+' ∨ c = '-' then
      let ds := cs'.takeWhile Char.isDigit
      if ds.isEmpty then none
      else
        match takeMods fuel (cs'.dropWhile Char.isDigit) with
        | some (ms, rest) => some ((c, ds) :: ms, rest)
        | none => none
    else some ([], c :: cs')

/-- The lexical shape of the dice regex
`\A(\d+)?d(\d+|%)(!)?(([kd][hl]?)(\d+)?)?((?:[+-]\d+)+)?\z`: the captured
tokens, or `none` when the input does not match.  All quantifier choices are
forced: digit runs are maximal (nothing after them accepts a digit), and the
optional groups begin with characters no other branch accepts. -/
def rollRegexMatch (cs : List Char) :
    Option (Option (List Char) × SidesTok × Bool × Option (Char × Option Char × Option (List Char))
      × Option (List (Char × List Char))) :=
  let amt := cs.takeWhile Char.isDigit
  let amtTok := if amt.isEmpty then none else some amt
  match cs.dropWhile Char.isDigit with
  | 'd' :: cs1 =>
    let sidesAndRest : Option (SidesTok × List Char) :=
      match cs1 with
      | '%' :: cs2 => some (.percent, cs2)
      | _ =>
        let ds := cs1.takeWhile Char.isDigit
        if ds.isEmpty then none else some (.num ds, cs1.dropWhile Char.isDigit)
    match sidesAndRest with
    | none => none
    | some (sides, cs2) =>
      let (bang, cs3) :=
        match cs2 with
        | '!' :: cs3 => (true, cs3)
        | _ => (false, cs2)
      let (selTok, cs4) :=
        match cs3 with
        | c :: cs3' =>
          if c = 'k' ∨ c = 'd' then
            let (hl, cs3'') :=
              match cs3' with
              | x :: cs3'' => if x = 'h' ∨ x = 'l' then (some x, cs3'') else (none, cs3')
              | [] => (none, cs3')
            let ds := cs3''.takeWhile Char.isDigit
            let dsTok := if ds.isEmpty then none else some ds
            (some (c, hl, dsTok), cs3''.dropWhile Char.isDigit)
          else (none, cs3)
        | [] => (none, cs3)
      match takeMods (cs4.length + 1) cs4 with
      | none => none
      | some (ms, rest) =>
        if rest.isEmpty then
          some (amtTok, sides, bang, selTok, if ms.isEmpty then none else some ms)
        else none
  | _ => none

/-- Digit run to a `Nat`. -/
def digitsToNat (ds : List Char) : Nat :=
  ds.foldl (fun a c => a * 10 + (c.toNat - 48)) 0

/-- Rust's `u16::from_str` on a digit string. -/
def parseU16 (ds : List Char) : Except String Nat :=
  let v := digitsToNat ds
  if v > 65535 then .error "number too large to fit in target type"
  else .ok v

/-- The semantic amount check of `Roll::from_str`: `u16` parse, then the
zero test. -/
def parseRollAmount (t : Option (List Char)) : Except RollParseError Nat :=
  match t with
  | none => .ok 1
  | some ds =>
    match parseU16 ds with
    | .error e => .error (.Invalid ("bad amount: " ++ e))
    | .ok a => if a = 0 then .error (.Invalid "amount can't be 0") else .ok a

/-- The semantic sides check of `Roll::from_str`: `%` is 100; otherwise `u16`
parse, then the zero test. -/
def parseRollSides (t : SidesTok) : Except RollParseError Nat :=
  match t with
  | .percent => .ok 100
  | .num ds =>
    match parseU16 ds with
    | .error e => .error (.Invalid ("bad number of sides: " ++ e))
    | .ok s => if s = 0 then .error (.Invalid "number of sides can't be 0") else .ok s

/-- The semantic select clause of `Roll::from_str`. -/
def parseRollSelect (t : Option (Char × Option Char × Option (List Char))) :
    Except RollParseError (Option SelectDice) :=
  match t with
  | none => .ok none
  | some (c, hl, ds?) => do
    let (action, which) :=
      if c = 'k' then
        if hl = some 'l' then (SelectAction.Keep, SelectWhich.Low)
        else (SelectAction.Keep, SelectWhich.High)
      else
        if hl = some 'h' then (SelectAction.Drop, SelectWhich.High)
        else (SelectAction.Drop, SelectWhich.Low)
    let amount ← match ds? with
      | none => pure 1
      | some ds =>
        match parseU16 ds with
        | .error e => throw (RollParseError.Invalid ("bad select amount: " ++ e))
        | .ok a =>
          if a = 0 then throw (RollParseError.Invalid "select amount can't be 0")
          else pure a
    pure (some ⟨amount, action, which⟩)

/-- Rust's `i32::from_str` on a sign-and-digits modifier token. -/
def parseModTok (t : Char × List Char) : Except RollParseError Int :=
  let v : Int := digitsToNat t.2
  let v := if t.1 = '-' then -v else v
  if v > 2147483647 ∨ v < -2147483648 then
    .error (.Invalid "bad modifier: number too large to fit in target type")
  else .ok v

/-- The summed net modifier of `Roll::from_str`. -/
def parseRollModifier (t : Option (List (Char × List Char))) : Except RollParseError Int :=
  match t with
  | none => .ok 0
  | some ms =>
    ms.foldlM (fun acc m => do
      let v ← parseModTok m
      pure (acc + v)) 0

/-- `Roll::from_str` of `src/dice.rs`. -/
def Roll.fromStr (s : String) : Except RollParseError Roll :=
  match rollRegexMatch s.data with
  | none => .error .NoMatch
  | some (amtTok, sidesTok, bang, selTok, modTok) =>
    match parseRollAmount amtTok with
    | .error e => .error e
    | .ok amount =>
      match parseRollSides sidesTok with
      | .error e => .error e
      | .ok sides =>
        match parseRollSelect selTok with
        | .error e => .error e
        | .ok select =>
          match parseRollModifier modTok with
          | .error e => .error e
          | .ok modifier => .ok ⟨amount, sides, bang, select, modifier⟩

/-- `Die` of `src/dice.rs`. -/
structure Die where
  val : Nat
  dropped : Bool
  deriving Repr, DecidableEq

/-- The inner `loop` of `Roll::eval`: one dice group, re-rolling while an
exploding die lands on its maximum.  `none` models the loop not terminating
within `fuel` iterations (the Rust loop has no bound at all). -/
def rollGroup (sides : Nat) (exploding : Bool) : Nat → Pcg → Option (List Die × Pcg)
  | 0, _ => none
  | fuel + 1, g =>
    let val := (Pcg.genRangeNat 1 sides g).1
    let g' := (Pcg.genRangeNat 1 sides g).2
    if exploding && val == sides then
      match rollGroup sides exploding fuel g' with
      | some (ds, g'') => some (⟨val, false⟩ :: ds, g'')
      | none => none
    else some ([⟨val, false⟩], g')

/-- The outer `for _ in 0..self.amount` of `Roll::eval`. -/
def rollAll (sides : Nat) (exploding : Bool) (fuel : Nat) : Nat → Pcg → Option (List Die × Pcg)
  | 0, g => some ([], g)
  | n + 1, g =>
    match rollGroup sides exploding fuel g with
    | none => none
    | some (ds, g') =>
      match rollAll sides exploding fuel n g' with
      | none => none
      | some (ds', g'') => some (ds ++ ds', g'')

/-- Mark a die dropped. -/
def setDrop (d : Die) : Die := ⟨d.val, true⟩

/-- The select clause application of `Roll::eval`: sort ascending and mark the
appropriate prefix/suffix dropped (`iter_mut().rev().skip/take(n)` on the
sorted vector). -/
def markDice (sel : Option SelectDice) (dice : List Die) : List Die :=
  match sel with
  | none => dice
  | some sel =>
    let n := sel.amount
    let sorted := dice.insertionSort (fun a b => a.val ≤ b.val)
    match sel.action, sel.which with
    | .Keep, .High => (sorted.take (sorted.length - n)).map setDrop ++ sorted.drop (sorted.length - n)
    | .Keep, .Low => sorted.take n ++ (sorted.drop n).map setDrop
    | .Drop, .High => sorted.take (sorted.length - n) ++ (sorted.drop (sorted.length - n)).map setDrop
    | .Drop, .Low => (sorted.take n).map setDrop ++ sorted.drop n

/-- `RollResult` of `src/dice.rs`. -/
structure RollResult where
  roll : Roll
  dice : List Die
  deriving Repr, DecidableEq

/-- `Roll::eval` of `src/dice.rs`, with explosion fuel. -/
def Roll.eval (r : Roll) (fuel : Nat) (g : Pcg) : Option (RollResult × Pcg) :=
  match rollAll r.sides r.exploding fuel r.amount g with
  | none => none
  | some (dice, g') => some (⟨r, markDice r.select dice⟩, g')

/-- `RollResult::taken_dice`: the values of the non-dropped dice. -/
def RollResult.takenDice (rr : RollResult) : List Nat :=
  rr.dice.filterMap (fun d => if d.dropped then none else some d.val)

/-- `RollResult::total`: sum of non-dropped values plus the modifier. -/
def RollResult.total (rr : RollResult) : Int :=
  (rr.takenDice.map (fun v => (v : Int))).sum + rr.roll.modifier

/-! ## Intervals (`src/interval.rs`) -/

/-- `IntervalParseError` of `src/interval.rs`. -/
inductive IntervalParseError
  | NoMatch
  | Invalid (msg : String)
  deriving Repr, DecidableEq

/-- `std::ops::Range<i32>` as stored in `IntervalKind::Int` (`stop` is the
Rust field `end`, a Lean keyword). -/
structure IntRange where
  start : Int
  stop : Int
  deriving Repr, DecidableEq

/-- `IntervalKind` of `src/interval.rs`; float bounds are exact rationals. -/
inductive IntervalKind
  | IntK (r : IntRange)
  | FloatK (lo hi : Rat)
  deriving Repr, DecidableEq

/-- `Interval` of `src/interval.rs`. -/
structure Interval where
  low_inc : Bool
  high_inc : Bool
  kind : IntervalKind
  deriving Repr, DecidableEq

/-- `i32::MAX`. -/
def I32MAX : Int := 2147483647

/-- `i32::MIN`. -/
def I32MIN : Int := -2147483648

/-- `i32` `checked_add(1)` on an in-range value. -/
def checkedAdd1 (x : Int) : Option Int :=
  if x + 1 > I32MAX then none else some (x + 1)

/-- `build_int_range` of `src/interval.rs`: canonicalize to a half-open range
(`start += 1` when low-exclusive, `end += 1` when high-inclusive), rejecting
overflow and empty results. -/
def buildIntRange (start stop : Int) (lowInc highInc : Bool) :
    Except IntervalParseError IntRange :=
  match (if lowInc then some start else checkedAdd1 start) with
  | none => .error (.Invalid "start value is too big")
  | some s =>
    match (if highInc then checkedAdd1 stop else some stop) with
    | none => .error (.Invalid "end value is too big")
    | some e =>
      if e ≤ s then .error (.Invalid "the interval is empty")
      else .ok ⟨s, e⟩

/-- The number token `((?:\+|-)?(?:\d*\.)?\d+)` of the interval regex: the
matched characters and the rest.  The optional `\d*\.` part participates only
when a digit follows the dot, which is exactly what backtracking yields. -/
def numTok (cs : List Char) : Option (List Char × List Char) :=
  let (sgn, cs1) :=
    match cs with
    | c :: r => if c = '+' ∨ c = '-' then ([c], r) else (([] : List Char), cs)
    | [] => ([], cs)
  let d1 := cs1.takeWhile Char.isDigit
  let cs2 := cs1.dropWhile Char.isDigit
  match cs2 with
  | '.' :: cs3 =>
    let d2 := cs3.takeWhile Char.isDigit
    if d2.isEmpty then
      if d1.isEmpty then none else some (sgn ++ d1, cs2)
    else some (sgn ++ d1 ++ ['.'] ++ d2, cs3.dropWhile Char.isDigit)
  | _ => if d1.isEmpty then none else some (sgn ++ d1, cs2)

/-- The match of the bracket-interval regex
`\A([\[\(])\s*NUM\s*(,|\.{2})\s*NUM\s*([\]\)])\z`:
(open bracket, first number, separator-is-comma, second number, close bracket). -/
def intervalRegexMatch (cs : List Char) :
    Option (Char × List Char × Bool × List Char × Char) := do
  let (bopen, cs) ←
    match cs with
    | c :: rest => if c = '[' ∨ c = '(' then some (c, rest) else none
    | [] => none
  let cs := cs.dropWhile isWs
  let (n1, cs) ← numTok cs
  let cs := cs.dropWhile isWs
  let (isComma, cs) ←
    match cs with
    | ',' :: rest => some (true, rest)
    | '.' :: '.' :: rest => some (false, rest)
    | _ => none
  let cs := cs.dropWhile isWs
  let (n2, cs) ← numTok cs
  let cs := cs.dropWhile isWs
  match cs with
  | [c] => if c = ']' ∨ c = ')' then some (bopen, n1, isComma, n2, c) else none
  | _ => none

/-- Rust's `i32::from_str` on a sign-and-digits token. -/
def parseI32 (cs : List Char) : Except String Int :=
  let (neg, ds) :=
    match cs with
    | '-' :: r => (true, r)
    | '+' :: r => (false, r)
    | _ => (false, cs)
  let v : Int := digitsToNat ds
  let v := if neg then -v else v
  if v > I32MAX ∨ v < I32MIN then .error "number too large to fit in target type"
  else .ok v

/-- `parse_int` of `src/interval.rs`. -/
def parseIntPart (cs : List Char) (part : String) : Except IntervalParseError Int :=
  match parseI32 cs with
  | .ok v => .ok v
  | .error e => .error (.Invalid (part ++ ": " ++ e))

/-- A decimal number token as an exact rational (model of `f32::from_str` on
the tokens the interval regex accepts). -/
def parseFloatPart (cs : List Char) (part : String) : Except IntervalParseError Rat :=
  let (neg, cs1) :=
    match cs with
    | '-' :: r => (true, r)
    | '+' :: r => (false, r)
    | _ => (false, cs)
  let d1 := cs1.takeWhile Char.isDigit
  let cs2 := cs1.dropWhile Char.isDigit
  let q : Rat :=
    match cs2 with
    | '.' :: d2 => (digitsToNat d1 : Rat) + (digitsToNat d2 : Rat) / ((10 : Rat) ^ d2.length)
    | _ => (digitsToNat d1 : Rat)
  let _ := part
  .ok (if neg then -q else q)

/-- `parse_interval` of `src/interval.rs`. -/
def parseInterval (s : String) : Except IntervalParseError Interval :=
  match intervalRegexMatch s.data with
  | none => .error .NoMatch
  | some (bopen, n1, isComma, n2, bclose) => do
    let lowInc := bopen = '['
    let highInc := bclose = ']'
    let isFloat := isComma ∨ n1.contains '.' ∨ n2.contains '.'
    let kind ←
      if isFloat then do
        let lo ← parseFloatPart n1 "start"
        let hi ← parseFloatPart n2 "end"
        if hi ≤ lo then throw (IntervalParseError.Invalid "the interval is empty")
        else pure (IntervalKind.FloatK lo hi)
      else do
        let lo ← parseIntPart n1 "start"
        let hi ← parseIntPart n2 "end"
        let r ← buildIntRange lo hi lowInc highInc
        pure (IntervalKind.IntK r)
    pure ⟨lowInc, highInc, kind⟩

/-- Does `cs` match `(?:\+|-)?\d+` exactly? -/
def isSignedIntTok (cs : List Char) : Bool :=
  let cs1 :=
    match cs with
    | c :: r => if c = '+' ∨ c = '-' then r else cs
    | [] => cs
  !cs1.isEmpty && cs1.all Char.isDigit

/-- Backtracking over the greedy first capture of the bare-range regex
`\A((?:\+|-)?\d+)..(=)?((?:\+|-)?\d+)\z` (note: the two dots are unescaped
and match any two characters, exactly as in the source's pattern).  `k` is the
length of the digit run tried for group 1, preferred longest first. -/
def rangeRegexTry (sgn digs tail : List Char) : Nat → Option (List Char × Bool × List Char)
  | 0 => none
  | k + 1 =>
    let rest := digs.drop (k + 1) ++ tail
    let attempt :=
      match rest with
      | _ :: _ :: rest2 =>
        match rest2 with
        | '=' :: rest3 =>
          if isSignedIntTok rest3 then some (sgn ++ digs.take (k + 1), true, rest3) else none
        | _ =>
          if isSignedIntTok rest2 then some (sgn ++ digs.take (k + 1), false, rest2) else none
      | _ => none
    match attempt with
    | some r => some r
    | none => rangeRegexTry sgn digs tail k

/-- The match of the bare-range regex: (group 1, inclusive `=`, group 3). -/
def rangeRegexMatch (cs : List Char) : Option (List Char × Bool × List Char) :=
  let (sgn, cs1) :=
    match cs with
    | c :: r => if c = '+' ∨ c = '-' then ([c], r) else (([] : List Char), cs)
    | [] => ([], cs)
  let digs := cs1.takeWhile Char.isDigit
  rangeRegexTry sgn digs (cs1.dropWhile Char.isDigit) digs.length

/-- `parse_range` of `src/interval.rs`. -/
def parseRange (s : String) : Except IntervalParseError Interval :=
  match rangeRegexMatch s.data with
  | none => .error .NoMatch
  | some (g1, inclusive, g3) => do
    let start ← parseIntPart g1 "start"
    let stop ← parseIntPart g3 "end"
    let r ← buildIntRange start stop true inclusive
    pure ⟨true, inclusive, .IntK r⟩

/-- `Interval::from_str` of `src/interval.rs`: try the bare-range form first,
fall back to the bracket form only on `NoMatch`. -/
def Interval.fromStr (s : String) : Except IntervalParseError Interval :=
  match parseRange s with
  | .error .NoMatch => parseInterval s
  | other => other

/-- The integers an integer-family interval samples from: membership in its
canonical half-open range (`gen_range(r.start..r.end)` draws exactly these). -/
def Interval.containsInt (i : Interval) (k : Int) : Prop :=
  match i.kind with
  | .IntK r => r.start ≤ k ∧ k < r.stop
  | .FloatK _ _ => False

/-- `Num` of `src/interval.rs` (`Num::Int` / `Num::Float`). -/
inductive Num
  | IntVal (n : Int)
  | FloatVal (q : Rat)
  deriving Repr, DecidableEq

/-- `IntervalResult` of `src/interval.rs`. -/
structure IntervalResult where
  interval : Interval
  value : Num
  deriving Repr, DecidableEq

/-- Model of the `OpenClosed01` draw: a rational in `(0, 1]`. -/
def Pcg.genOpenClosed (g : Pcg) : Rat × Pcg :=
  let (x, g') := g.next
  (((x % 2 ^ 24 : Nat) + 1 : Nat) / (2 ^ 24 : Rat), g')

/-- Model of the `Open01` draw: a rational in `(0, 1)`. -/
def Pcg.genOpen (g : Pcg) : Rat × Pcg :=
  let (x, g') := g.next
  (((x % (2 ^ 24 - 1) : Nat) + 1 : Nat) / (2 ^ 24 : Rat), g')

/-- `Interval::eval` of `src/interval.rs`. -/
def Interval.eval (i : Interval) (g : Pcg) : IntervalResult × Pcg :=
  match i.kind with
  | .IntK r =>
    let (v, g') := Pcg.genRangeInt r.start r.stop g
    (⟨i, .IntVal v⟩, g')
  | .FloatK lo hi =>
    let (u, g') :=
      match i.low_inc, i.high_inc with
      | true, true => Pcg.genOpenClosed g
      | true, false => Pcg.genUnit g
      | false, true => Pcg.genOpenClosed g
      | false, false => Pcg.genOpen g
    (⟨i, .FloatVal (lo + u * (hi - lo))⟩, g')

/-! ## Coin (`src/coin.rs`) -/

/-- `CoinResult` of `src/coin.rs`. -/
inductive CoinResult
  | Heads
  | Tails
  deriving Repr, DecidableEq

/-- `toss_coin` of `src/coin.rs`. -/
def tossCoin (g : Pcg) : CoinResult × Pcg :=
  let (b, g') := g.genBool
  (if b then .Heads else .Tails, g')

/-! ## Entries (`src/entry.rs`) and the modelled `SharedEntry` -/

/-- `EntryData` of `src/entry.rs`: a classified pending entry. -/
inductive EntryData
  | Text (t : String)
  | Coin
  | Dice (r : Roll)
  | IntervalE (i : Interval)
  deriving Repr, DecidableEq

/-- `parse_expr` of `src/entry.rs`: the `coin` keyword, then the dice grammar,
then the interval grammar, each failing hard on `Invalid`; literal text only
when every recognizer answers `NoMatch`. -/
def parseExpr (expr : String) : Except Error EntryData :=
  if expr = "coin" then .ok .Coin
  else
    match Roll.fromStr expr with
    | .ok r => .ok (.Dice r)
    | .error (.Invalid m) => .error (.Expr ("invalid dice roll: " ++ m))
    | .error .NoMatch =>
      match Interval.fromStr expr with
      | .ok i => .ok (.IntervalE i)
      | .error (.Invalid m) => .error (.Expr ("invalid interval: " ++ m))
      | .error .NoMatch => .ok (.Text expr)

/-- Modelled from the spec: `SharedEntry::new` of `src/lib.rs` is declared in
a source file absent from the staged tree (`lib.rs` only calls it).  Per
`end_stmt`'s comment ("if eval, parse everything so the same query always
fails/succeed no matter of the RNG state") and spec §4.4–§4.5, it classifies
the text through the expression recognizers when expression evaluation is on,
and keeps it as literal text otherwise. -/
def SharedEntry.new (t : String) (evalExpr : Bool) : Except Error EntryData :=
  if evalExpr then parseExpr t else .ok (.Text t)

/-- `Entry` of `src/entry.rs`: an evaluated sample. -/
inductive Entry
  | Text (t : String)
  | Coin (r : CoinResult)
  | Dice (r : RollResult)
  | IntervalE (r : IntervalResult)
  deriving Repr, DecidableEq

/-- `BufferedEntry::eval` of `src/entry.rs` (the evaluation dispatch of the
shared entries in `end_stmt`), with dice fuel. -/
def EntryData.eval (fuel : Nat) (e : EntryData) (g : Pcg) : Option (Entry × Pcg) :=
  match e with
  | .Text t => some (.Text t, g)
  | .Coin =>
    let (r, g') := tossCoin g
    some (.Coin r, g')
  | .Dice r =>
    match r.eval fuel g with
    | none => none
    | some (rr, g') => some (.Dice rr, g')
  | .IntervalE i =>
    let (r, g') := i.eval g
    some (.IntervalE r, g')

/-- Modelled from the spec: `Entry::into_raw` of `src/lib.rs` is declared in
the same absent source file.  Per spec §4.2, the `p` flag "pushes the
statement's rendered values back onto the entry stack", so the value-only
rendering of each sample becomes the new literal entry text. -/
def Entry.intoRaw : Entry → String
  | .Text t => t
  | .Coin .Heads => "heads"
  | .Coin .Tails => "tails"
  | .Dice rr => toString rr.total
  | .IntervalE r =>
    match r.value with
    | .IntVal n => toString n
    | .FloatVal q => toString q.num ++ "/" ++ toString q.den

/-! ## The selectors (`select` of `src/lib.rs` and of `src/eval.rs`) -/

/-- `ChooseOptions` of `src/ast.rs` (the options record the `eval.rs` selector
reads). -/
structure ChooseOptions where
  repeating : Bool
  keep_order : Bool
  amount : Amount
  deriving Repr, DecidableEq

/-- The amount resolution shared by both selectors: `All` is the population
size, `N n` the requested count. -/
def resolvedAmount (a : Amount) (len : Nat) : Nat :=
  match a with
  | .All => len
  | .N k => k

/-- The shared general case of both selectors: with replacement, `n`
independent uniform draws; without replacement, a without-replacement sample;
then a sort by insertion index when order preservation is requested. -/
def selectGeneral {α : Type} [DecidableEq α] (g : Pcg) (entries : List (Nat × α))
    (repeating keepOrder : Bool) (n : Nat) : List (Nat × α) × Pcg :=
  let (selected, g') :=
    if repeating then chooseRepeat g entries n
    else chooseMultiple g entries n
  (if keepOrder then selected.insertionSort (fun a b => a.1 ≤ b.1) else selected, g')

/-- `select` of `src/eval.rs`: fast path when *not* repeating and the amount
covers the population, general case otherwise. -/
def evalRsSelect {α : Type} [DecidableEq α] (g : Pcg) (entries : List (Nat × α))
    (o : ChooseOptions) : List (Nat × α) × Pcg :=
  if entries.isEmpty then ([], g)
  else
    let n := resolvedAmount o.amount entries.length
    if o.repeating = false ∧ entries.length ≤ n then
      if o.keep_order then (entries, g) else shuffleList g entries
    else selectGeneral g entries o.repeating o.keep_order n

/-- `select` of `src/lib.rs`: its fast path fires exactly when the resolved
amount equals the population size (`n == entries.len()`), independently of
`repeating`. -/
def select {α : Type} [DecidableEq α] (g : Pcg) (entries : List (Nat × α))
    (o : Options) : List (Nat × α) × Pcg :=
  if entries.isEmpty then ([], g)
  else
    let n := resolvedAmount o.amount entries.length
    if n = entries.length then
      if o.keep_order then (entries, g) else shuffleList g entries
    else selectGeneral g entries o.repeating o.keep_order n

/-! ## The interpreter state (`State` of `src/lib.rs`) -/

/-- `StmtOutput` of `src/lib.rs`. -/
structure StmtOutput where
  out : List Entry
  deriving Repr, DecidableEq

/-- `State` of `src/lib.rs`. -/
structure State where
  stack : List String
  rng : Pcg
  sep : Separators
  deriving Repr, DecidableEq

/-- `State::with_seed`. -/
def State.withSeed (seed : Nat) : State :=
  ⟨[], Pcg.seedFromU64 seed, Separators.default⟩

/-- `State::add_entry`: trim, drop when empty, else push. -/
def State.addEntry (s : State) (entry : String) : State :=
  let e := String.mk (trimWsChars entry.data)
  if e.isEmpty then s else { s with stack := s.stack ++ [e] }

/-- The `eval_expr` resolution at the top of `end_stmt`: `Auto` means
"exactly one pending entry". -/
def evalExprFlag (o : Options) (stackLen : Nat) : Bool :=
  match o.eval_expr with
  | .Auto => stackLen == 1
  | .Custom r => r

/-- The classification loop of `end_stmt`: share each entry with its id. -/
def mkShared (entries : List String) (evalExpr : Bool) :
    Except Error (List (Nat × EntryData)) :=
  entries.enum.mapM (fun (id, t) => (SharedEntry.new t evalExpr).map (fun e => (id, e)))

/-- The evaluation loop of `end_stmt`, threading the RNG left to right. -/
def evalEntries (fuel : Nat) : List (Nat × EntryData) → Pcg → Option (List Entry × Pcg)
  | [], g => some ([], g)
  | (_, e) :: rest, g =>
    match e.eval fuel g with
    | none => none
    | some (v, g') =>
      match evalEntries fuel rest g' with
      | none => none
      | some (vs, g'') => some (v :: vs, g'')

/-- `State::end_stmt` of `src/lib.rs`: resolve the `Auto` policy, take the
stack (leaving it empty), classify, select, evaluate, and either emit the
samples or push their raw values back.  `none` models non-termination of a
dice evaluation. -/
def State.endStmt (fuel : Nat) (s : State) (o : Options) :
    Option (Except Error StmtOutput × State) :=
  match mkShared s.stack (evalExprFlag o s.stack.length) with
  | .error e => some (.error e, { s with stack := [] })
  | .ok shared =>
    match evalEntries fuel (select s.rng shared o).1 (select s.rng shared o).2 with
    | none => none
    | some (output, g'') =>
      if o.push then
        some (.ok ⟨[]⟩, { s with stack := output.map Entry.intoRaw, rng := g'' })
      else some (.ok ⟨output⟩, { s with stack := [], rng := g'' })

/-- The panic of `run_line`'s `assert!` alongside the recoverable errors. -/
inductive RunError
  | err (e : Error)
  | panicked (msg : String)
  deriving Repr, DecidableEq

/-- The token-processing loop of `State::run_line`. -/
def processParts (fuel : Nat) : List (Except SplitPartsError QueryPart) →
    Option Options → State → List StmtOutput →
    Option (Except RunError (List StmtOutput) × State)
  | [], opt?, s, acc =>
    match opt? with
    | none => some (.ok acc, s)
    | some o =>
      match s.endStmt fuel o with
      | none => none
      | some (.error e, s') => some (.error (.err e), s')
      | some (.ok out, s') => some (.ok (acc ++ [out]), s')
  | .error e :: _, _, s, acc =>
    let _ := acc
    some (.error (.err (.SplitError e)), s)
  | .ok tok :: rest, opt?, s, acc =>
    match tok with
    | .entry e => processParts fuel rest opt? (s.addEntry e) acc
    | .options ostr =>
      if opt?.isSome then some (.error (.panicked "more than one options in a query"), s)
      else
        match Options.fromStr ostr with
        | .error e => some (.error (.err e), s)
        | .ok o => processParts fuel rest (some o) s acc
    | .endStmt =>
      match s.endStmt fuel (opt?.getD Options.default) with
      | none => none
      | some (.error e, s') => some (.error (.err e), s')
      | some (.ok out, s') => processParts fuel rest none s' (acc ++ [out])

/-- `State::run_line` of `src/lib.rs`. -/
def State.runLine (fuel : Nat) (s : State) (line : String) :
    Option (Except RunError (List StmtOutput) × State) :=
  processParts fuel (splitLineParts s.sep line) none s []

/-- `State::eof` of `src/lib.rs`. -/
def State.eof (fuel : Nat) (s : State) :
    Option (Except Error (Option StmtOutput) × State) :=
  if s.stack.isEmpty then some (.ok none, s)
  else
    match s.endStmt fuel Options.default with
    | none => none
    | some (.error e, s') => some (.error e, s')
    | some (.ok out, s') => some (.ok (some out), s')

/-- Feeding a sequence of lines through `run_line`, stopping at the first
error exactly as `run` of `src/lib.rs` propagates with `?`. -/
def runLines (fuel : Nat) : State → List String →
    Option (Except RunError (List StmtOutput) × State)
  | s, [] => some (.ok [], s)
  | s, line :: rest =>
    match s.runLine fuel line with
    | none => none
    | some (.error e, s') => some (.error e, s')
    | some (.ok outs, s') =>
      match runLines fuel s' rest with
      | none => none
      | some (.error e, s'') => some (.error e, s'')
      | some (.ok outs', s'') => some (.ok (outs ++ outs'), s'')

/-- `run` of `src/lib.rs`: all lines, then `eof`. -/
def run (fuel : Nat) (s : State) (lines : List String) :
    Option (Except RunError (List StmtOutput) × State) :=
  match runLines fuel s lines with
  | none => none
  | some (.error e, s') => some (.error e, s')
  | some (.ok outs, s') =>
    match s'.eof fuel with
    | none => none
    | some (.error e, s'') => some (.error (.err e), s'')
    | some (.ok none, s'') => some (.ok outs, s'')
    | some (.ok (some o), s'') => some (.ok (outs ++ [o]), s'')

/-! ## Helper lemmas -/

theorem genRangeNat_one_one (g : Pcg) : Pcg.genRangeNat 1 1 g = (1, g.next.2) := by
  simp [Pcg.genRangeNat, Nat.mod_one]

/-- A one-sided exploding group never finishes: every roll of a `d1` is its
maximum, so the `loop` in `Roll::eval` never breaks. -/
theorem rollGroup_d1_explodes : ∀ (fuel : Nat) (g : Pcg), rollGroup 1 true fuel g = none := by
  intro fuel
  induction fuel with
  | zero => intro g; rfl
  | succ n ih =>
    intro g
    have hval : (Pcg.genRangeNat 1 1 g).1 = 1 := by rw [genRangeNat_one_one]
    simp [rollGroup, hval, ih]

/-! ## The claims -/

/-- C1: two interpreter states constructed with the same seed and fed the same
line sequence (through `run_line` and `eof`, as `run` does) produce identical
output sequences — dice totals and interval samples included, since the
outputs carry the full `RollResult`/`IntervalResult` values.  The embedding
threads the single `Pcg` source through every evaluation step, so the whole
pipeline is a function of the seed and the input. -/
theorem claim_C1 : ∀ (seed : Nat) (lines : List String) (fuel : Nat) (s₁ s₂ : State),
    s₁ = State.withSeed seed → s₂ = State.withSeed seed →
    run fuel s₁ lines = run fuel s₂ lines := by
  intro seed lines fuel s₁ s₂ h₁ h₂
  rw [h₁, h₂]

/-- C1 witness at a concrete seed and line. -/
theorem claim_C1_witness :
    State.withSeed 42 = State.withSeed 42 ∧
    run 8 (State.withSeed 42) ["d6, coin / 2"] = run 8 (State.withSeed 42) ["d6, coin / 2"] :=
  ⟨rfl, claim_C1 42 ["d6, coin / 2"] 8 _ _ rfl rfl⟩

/-- C4: the roll parsed from `"1d1!"` is `1d1` exploding, and its evaluation
never terminates: for every RNG state and every iteration bound the inner
roll loop is still running (each `d1` lands on its maximum and explodes
again), so the claimed termination fails on the code. -/
theorem claim_C4 :
    Roll.fromStr "1d1!" = .ok ⟨1, 1, true, none, 0⟩ ∧
    ∀ (fuel : Nat) (g : Pcg), Roll.eval ⟨1, 1, true, none, 0⟩ fuel g = none := by
  refine ⟨by decide, ?_⟩
  intro fuel g
  simp [Roll.eval, rollAll, rollGroup_d1_explodes]

/-- C5: the options amount grammar.  `"0"` and positive integers work as
claimed (also with flags), but the regex arm for `all` is `all\s` — it demands
a whitespace character after the literal — so the bare string `"all"` is
rejected with `Bad options: all`, contradicting the claim; `"all "`/`"all r"`
parse to `All`. -/
theorem claim_C5 :
    Options.fromStr "all" = .error (.Options "Bad options: all") ∧
    Options.fromStr "all " = .ok ⟨.All, false, .Auto, false, false⟩ ∧
    Options.fromStr "all r" = .ok ⟨.All, true, .Auto, false, false⟩ ∧
    Options.fromStr "0" = .ok ⟨.N 0, false, .Auto, false, false⟩ ∧
    Options.fromStr "3ro" = .ok ⟨.N 3, true, .Auto, true, false⟩ ∧
    Options.fromStr "12" = .ok ⟨.N 12, false, .Auto, false, false⟩ := by
  decide

/-- C6: when the options leave expression evaluation in `Auto`, `end_stmt`
resolves it through `evalExprFlag`, which is `true` exactly when the pending
stack holds exactly one entry. -/
theorem claim_C6 : ∀ (o : Options) (n : Nat), o.eval_expr = .Auto →
    (evalExprFlag o n = true ↔ n = 1) := by
  intro o n h
  simp [evalExprFlag, h]

/-- C6 witness: the default options are `Auto`, and one entry means
expression evaluation. -/
theorem claim_C6_witness :
    Options.default.eval_expr = .Auto ∧ (evalExprFlag Options.default 1 = true ↔ 1 = 1) :=
  ⟨rfl, claim_C6 Options.default 1 rfl⟩

/-- C9: bracket interchangeability in the tokenizer: `"[a, b), c"` splits into
`"[a, b)"` and `"c"`, `"{a, b}]"` is a nesting error, and `Nest::matches`
cross-matches square and round brackets while curly braces only match curly
braces. -/
theorem claim_C9 :
    splitLineParts Separators.default "[a, b), c" =
      [.ok (.entry "[a, b)"), .ok (.entry "c")] ∧
    splitLineParts Separators.default "{a, b}]" =
      [.error (.UnbalancedNesting 7 "square brackets")] ∧
    Nest.matches .Square .Paren = true ∧
    Nest.matches .Paren .Square = true ∧
    Nest.matches .Paren .Paren = true ∧
    Nest.matches .Square .Square = true ∧
    Nest.matches .Curly .Curly = true ∧
    Nest.matches .Curly .Paren = false ∧
    Nest.matches .Curly .Square = false ∧
    Nest.matches .Paren .Curly = false ∧
    Nest.matches .Square .Curly = false := by
  decide

/-- C10: whenever `end_stmt` finalizes a statement, the pending stack of the
returned state is empty both on success without the push flag and on failure
(`mem::take` empties it before any entry is parsed, so an expression-parse
error still leaves it empty). -/
theorem claim_C10 : ∀ (fuel : Nat) (s : State) (o : Options) (r : Except Error StmtOutput)
    (s' : State), State.endStmt fuel s o = some (r, s') →
    ((o.push = false → ∀ out, r = .ok out → s'.stack = []) ∧
     (∀ e, r = .error e → s'.stack = [])) := by
  intro fuel s o r s' h
  unfold State.endStmt at h
  split at h
  · simp only [Option.some.injEq, Prod.mk.injEq] at h
    obtain ⟨hr, hs⟩ := h
    subst hs
    constructor
    · intro _ out hout
      exact Except.noConfusion (hr.trans hout)
    · intro _ _; rfl
  · split at h
    · cases h
    · split at h
      next hpush =>
        simp only [Option.some.injEq, Prod.mk.injEq] at h
        obtain ⟨hr, hs⟩ := h
        subst hs
        constructor
        · intro hpf out _
          exact Bool.noConfusion (hpf.symm.trans hpush)
        · intro e he
          exact Except.noConfusion (hr.trans he)
      next hpush =>
        simp only [Option.some.injEq, Prod.mk.injEq] at h
        obtain ⟨hr, hs⟩ := h
        subst hs
        constructor
        · intro _ _ _; rfl
        · intro e he
          exact Except.noConfusion (hr.trans he)

/-- The fast path of the `eval.rs` selector applies exactly under its guard;
under `repeating` the general case runs.  (`buildIntRange` facts live in the
C7 helpers below.) -/
theorem evalRsSelect_repeating {α : Type} [DecidableEq α] (g : Pcg)
    (entries : List (Nat × α)) (o : ChooseOptions) (hne : entries ≠ [])
    (hrep : o.repeating = true) :
    evalRsSelect g entries o =
      selectGeneral g entries o.repeating o.keep_order
        (resolvedAmount o.amount entries.length) := by
  have hE : entries.isEmpty = false := by
    cases entries with
    | nil => exact absurd rfl hne
    | cons a t => rfl
  unfold evalRsSelect
  rw [hE]
  simp only [Bool.false_eq_true, if_false]
  rw [if_neg]
  intro hc
  exact Bool.noConfusion (hrep.symm.trans hc.1)

/-- C2: for a non-empty population, `repeating = false` and a requested
amount at least the population size, the `eval.rs` selector takes its fast
path and returns the whole population — unshuffled (exactly the input, which
is insertion order) when `keep_order` is set, else a permutation produced by
the external uniform `shuffle`; and with `repeating = true` the fast path
never applies: the selector runs the general (with-replacement) case. -/
theorem claim_C2 :
    (∀ {α : Type} [DecidableEq α] (g : Pcg) (entries : List (Nat × α)) (o : ChooseOptions),
      entries ≠ [] → o.repeating = false →
      entries.length ≤ resolvedAmount o.amount entries.length →
      (List.Perm (evalRsSelect g entries o).1 entries ∧
       (o.keep_order = true → (evalRsSelect g entries o).1 = entries) ∧
       (o.keep_order = false →
         (evalRsSelect g entries o).1 = (shuffleList g entries).1))) ∧
    (∀ {α : Type} [DecidableEq α] (g : Pcg) (entries : List (Nat × α)) (o : ChooseOptions),
      entries ≠ [] → o.repeating = true →
      evalRsSelect g entries o =
        selectGeneral g entries o.repeating o.keep_order
          (resolvedAmount o.amount entries.length)) := by
  constructor
  · intro α inst g entries o hne hrep hlen
    have hE : entries.isEmpty = false := by
      cases entries with
      | nil => exact absurd rfl hne
      | cons a t => rfl
    unfold evalRsSelect
    rw [hE]
    simp only [Bool.false_eq_true, if_false]
    rw [if_pos ⟨hrep, hlen⟩]
    by_cases hk : o.keep_order
    · rw [if_pos hk]
      exact ⟨List.Perm.refl entries, fun _ => rfl,
        fun hkf => Bool.noConfusion (hkf.symm.trans hk)⟩
    · rw [if_neg hk]
      refine ⟨shuffleList_perm g entries, fun hkk => absurd hkk hk, fun _ => rfl⟩
  · intro α inst g entries o hne hrep
    exact evalRsSelect_repeating g entries o hne hrep

/-- C2 witness at a concrete two-element population with `keep_order`. -/
theorem claim_C2_witness :
    ([(0, "a"), (1, "b")] : List (Nat × String)) ≠ [] ∧
    (⟨false, true, .All⟩ : ChooseOptions).repeating = false ∧
    ([(0, "a"), (1, "b")] : List (Nat × String)).length ≤
      resolvedAmount (⟨false, true, .All⟩ : ChooseOptions).amount 2 ∧
    (List.Perm (evalRsSelect (Pcg.seedFromU64 1)
        ([(0, "a"), (1, "b")] : List (Nat × String)) ⟨false, true, .All⟩).1
        [(0, "a"), (1, "b")] ∧
     ((⟨false, true, .All⟩ : ChooseOptions).keep_order = true →
       (evalRsSelect (Pcg.seedFromU64 1)
          ([(0, "a"), (1, "b")] : List (Nat × String)) ⟨false, true, .All⟩).1 =
         [(0, "a"), (1, "b")]) ∧
     ((⟨false, true, .All⟩ : ChooseOptions).keep_order = false →
       (evalRsSelect (Pcg.seedFromU64 1)
          ([(0, "a"), (1, "b")] : List (Nat × String)) ⟨false, true, .All⟩).1 =
         (shuffleList (Pcg.seedFromU64 1) ([(0, "a"), (1, "b")] : List (Nat × String))).1)) :=
  ⟨by decide, rfl, by decide,
    claim_C2.1 (Pcg.seedFromU64 1) [(0, "a"), (1, "b")] ⟨false, true, .All⟩
      (by decide) rfl (by decide)⟩

theorem checkedAdd1_eq (x y : Int) (h : checkedAdd1 x = some y) : y = x + 1 := by
  unfold checkedAdd1 at h
  split at h
  · cases h
  · exact (Option.some.inj h).symm

theorem checkedAdd1_none (x : Int) (h : x + 1 > I32MAX) : checkedAdd1 x = none := by
  unfold checkedAdd1
  rw [if_pos h]

/-- `build_int_range` success: the result is the canonical half-open range,
start bumped when low-exclusive, end bumped when high-inclusive, and it is
non-empty. -/
theorem buildIntRange_ok (lo hi : Int) (li hinc : Bool) (r : IntRange)
    (h : buildIntRange lo hi li hinc = .ok r) :
    r.start = lo + (if li then 0 else 1) ∧ r.stop = hi + (if hinc then 1 else 0) ∧
      r.start < r.stop := by
  unfold buildIntRange at h
  split at h
  · cases h
  next s hs =>
    split at h
    · cases h
    next e he =>
      split at h
      · cases h
      next hle =>
        have hr := Except.ok.inj h
        subst hr
        have hstart : s = lo + (if li then 0 else 1) := by
          cases li with
          | true =>
            simp only [if_true] at hs ⊢
            have := Option.some.inj hs
            omega
          | false =>
            simp only [Bool.false_eq_true, if_false] at hs ⊢
            have := checkedAdd1_eq lo s hs
            omega
        have hstop : e = hi + (if hinc then 1 else 0) := by
          cases hinc with
          | true =>
            simp only [if_true] at he ⊢
            have := checkedAdd1_eq hi e he
            omega
          | false =>
            simp only [Bool.false_eq_true, if_false] at he ⊢
            have := Option.some.inj he
            omega
        exact ⟨hstart, hstop, by show s < e; omega⟩

/-- `build_int_range` failure: an overflowing exclusivity adjustment or an
empty canonical range is rejected. -/
theorem buildIntRange_err (lo hi : Int) (li hinc : Bool)
    (h : (li = false ∧ lo + 1 > I32MAX) ∨ (hinc = true ∧ hi + 1 > I32MAX) ∨
      hi + (if hinc then 1 else 0) ≤ lo + (if li then 0 else 1)) :
    exceptIsError (buildIntRange lo hi li hinc) = true := by
  unfold buildIntRange
  split
  · rfl
  next s hs =>
    split
    · rfl
    next e he =>
      split
      · rfl
      next hle =>
        exfalso
        have hstart : s = lo + (if li then 0 else 1) := by
          cases li with
          | true =>
            simp only [if_true] at hs ⊢
            have := Option.some.inj hs
            omega
          | false =>
            simp only [Bool.false_eq_true, if_false] at hs ⊢
            have := checkedAdd1_eq lo s hs
            omega
        have hstop : e = hi + (if hinc then 1 else 0) := by
          cases hinc with
          | true =>
            simp only [if_true] at he ⊢
            have := checkedAdd1_eq hi e he
            omega
          | false =>
            simp only [Bool.false_eq_true, if_false] at he ⊢
            have := Option.some.inj he
            omega
        rcases h with ⟨hli, hov⟩ | ⟨hhi, hov⟩ | hempty
        · rw [hli] at hs
          simp only [Bool.false_eq_true, if_false] at hs
          rw [checkedAdd1_none lo hov] at hs
          cases hs
        · rw [hhi] at he
          simp only [if_true] at he
          rw [checkedAdd1_none hi hov] at he
          cases he
        · omega

/-- C7: `"[1..10]"` and `"1..=10"` parse to the same `Interval` value whose
integer range contains exactly `{1,…,10}`; `"(1..10)"` parses to a range
containing exactly `{2,…,9}`; and in general `build_int_range` canonicalizes
by adding 1 to an exclusive low bound and 1 to an inclusive high bound,
returning a non-empty range and rejecting empty or overflowing results. -/
theorem claim_C7 :
    Interval.fromStr "[1..10]" = .ok ⟨true, true, .IntK ⟨1, 11⟩⟩ ∧
    Interval.fromStr "1..=10" = .ok ⟨true, true, .IntK ⟨1, 11⟩⟩ ∧
    (∀ k : Int, (⟨true, true, .IntK ⟨1, 11⟩⟩ : Interval).containsInt k ↔ 1 ≤ k ∧ k ≤ 10) ∧
    Interval.fromStr "(1..10)" = .ok ⟨false, false, .IntK ⟨2, 10⟩⟩ ∧
    (∀ k : Int, (⟨false, false, .IntK ⟨2, 10⟩⟩ : Interval).containsInt k ↔ 2 ≤ k ∧ k ≤ 9) ∧
    (∀ (lo hi : Int) (li hinc : Bool) (r : IntRange),
      buildIntRange lo hi li hinc = .ok r →
      r.start = lo + (if li then 0 else 1) ∧ r.stop = hi + (if hinc then 1 else 0) ∧
        r.start < r.stop) ∧
    (∀ (lo hi : Int) (li hinc : Bool),
      (li = false ∧ lo + 1 > I32MAX) ∨ (hinc = true ∧ hi + 1 > I32MAX) ∨
        hi + (if hinc then 1 else 0) ≤ lo + (if li then 0 else 1) →
      exceptIsError (buildIntRange lo hi li hinc) = true) := by
  refine ⟨by decide, by decide, ?_, by decide, ?_, buildIntRange_ok, buildIntRange_err⟩
  · intro k
    simp only [Interval.containsInt]
    omega
  · intro k
    simp only [Interval.containsInt]
    omega

/-- C7 witness: the general canonicalization facts applied to the
`[1..10]` bounds. -/
theorem claim_C7_witness :
    buildIntRange 1 10 true true = .ok ⟨1, 11⟩ ∧
    ((⟨1, 11⟩ : IntRange).start = 1 + (if true then 0 else 1) ∧
     (⟨1, 11⟩ : IntRange).stop = 10 + (if true then 1 else 0) ∧
     (⟨1, 11⟩ : IntRange).start < (⟨1, 11⟩ : IntRange).stop) :=
  ⟨by decide, claim_C7.2.2.2.2.2.1 1 10 true true ⟨1, 11⟩ (by decide)⟩

/-- Every die a group produces lies in `[1, sides]`. -/
theorem rollGroup_bounds (sides : Nat) (ex : Bool) (hs : 1 ≤ sides) :
    ∀ (fuel : Nat) (g : Pcg) (ds : List Die) (g' : Pcg),
      rollGroup sides ex fuel g = some (ds, g') → ∀ d ∈ ds, 1 ≤ d.val ∧ d.val ≤ sides := by
  intro fuel
  induction fuel with
  | zero => intro g ds g' h; cases h
  | succ n ih =>
    intro g ds g' h
    have hval := Pcg.genRangeNat_bounds 1 sides g hs
    simp only [rollGroup] at h
    split at h
    · split at h
      next ds0 g'' hrec =>
        have hp := Option.some.inj h
        have hds : (⟨(Pcg.genRangeNat 1 sides g).1, false⟩ : Die) :: ds0 = ds :=
          congrArg Prod.fst hp
        intro d hd
        rw [← hds] at hd
        rcases List.mem_cons.mp hd with hhead | htail
        · rw [hhead]; exact hval
        · exact ih _ _ _ hrec d htail
      · cases h
    · have hp := Option.some.inj h
      have hds : [(⟨(Pcg.genRangeNat 1 sides g).1, false⟩ : Die)] = ds :=
        congrArg Prod.fst hp
      intro d hd
      rw [← hds] at hd
      rcases List.mem_cons.mp hd with hhead | htail
      · rw [hhead]; exact hval
      · cases htail

/-- Every die of the whole roll lies in `[1, sides]`. -/
theorem rollAll_bounds (sides : Nat) (ex : Bool) (fuel : Nat) (hs : 1 ≤ sides) :
    ∀ (n : Nat) (g : Pcg) (ds : List Die) (g' : Pcg),
      rollAll sides ex fuel n g = some (ds, g') → ∀ d ∈ ds, 1 ≤ d.val ∧ d.val ≤ sides := by
  intro n
  induction n with
  | zero =>
    intro g ds g' h
    have hp := Option.some.inj h
    have hds : ([] : List Die) = ds := congrArg Prod.fst hp
    intro d hd
    rw [← hds] at hd
    cases hd
  | succ k ih =>
    intro g ds g' h
    simp only [rollAll] at h
    split at h
    · cases h
    next ds1 g1 hgrp =>
      split at h
      · cases h
      next ds2 g2 hrest =>
        have hp := Option.some.inj h
        have hds : ds1 ++ ds2 = ds := congrArg Prod.fst hp
        intro d hd
        rw [← hds] at hd
        rcases List.mem_append.mp hd with h1 | h2
        · exact rollGroup_bounds sides ex hs fuel g ds1 g1 hgrp d h1
        · exact ih g1 ds2 g2 hrest d h2

/-- The select-clause marking only flips drop flags: every die value in the
marked list comes from the rolled list. -/
theorem mem_markDice_val (sel : Option SelectDice) (l : List Die) :
    ∀ d ∈ markDice sel l, ∃ d₀ ∈ l, d.val = d₀.val := by
  intro d hd
  cases sel with
  | none => exact ⟨d, hd, rfl⟩
  | some sel =>
    have hperm : List.Perm (l.insertionSort (fun a b => a.val ≤ b.val)) l :=
      List.perm_insertionSort _ l
    have key : ∀ d', d' ∈ l.insertionSort (fun a b => a.val ≤ b.val) →
        ∃ d₀ ∈ l, d'.val = d₀.val := fun d' h' => ⟨d', hperm.subset h', rfl⟩
    obtain ⟨n, act, which⟩ := sel
    cases act <;> cases which <;> simp only [markDice] at hd <;>
      rcases List.mem_append.mp hd with h1 | h2
    · obtain ⟨d₁, hd₁, hset⟩ := List.mem_map.mp h1
      rw [← hset]
      exact key d₁ (List.mem_of_mem_take hd₁)
    · exact key d (List.mem_of_mem_drop h2)
    · exact key d (List.mem_of_mem_take h1)
    · obtain ⟨d₁, hd₁, hset⟩ := List.mem_map.mp h2
      rw [← hset]
      exact key d₁ (List.mem_of_mem_drop hd₁)
    · exact key d (List.mem_of_mem_take h1)
    · obtain ⟨d₁, hd₁, hset⟩ := List.mem_map.mp h2
      rw [← hset]
      exact key d₁ (List.mem_of_mem_drop hd₁)
    · obtain ⟨d₁, hd₁, hset⟩ := List.mem_map.mp h1
      rw [← hset]
      exact key d₁ (List.mem_of_mem_take hd₁)
    · exact key d (List.mem_of_mem_drop h2)

/-- A parsed roll never has zero sides. -/
theorem parseRollSides_pos (t : SidesTok) (v : Nat) (h : parseRollSides t = .ok v) :
    1 ≤ v := by
  cases t with
  | percent =>
    simp only [parseRollSides] at h
    have := Except.ok.inj h
    omega
  | num ds =>
    simp only [parseRollSides] at h
    split at h
    · cases h
    next s hsu =>
      split at h
      · cases h
      · have := Except.ok.inj h
        omega

/-- `Roll::from_str` only returns rolls with at least one side. -/
theorem Roll_fromStr_sides_pos (s : String) (roll : Roll)
    (h : Roll.fromStr s = .ok roll) : 1 ≤ roll.sides := by
  unfold Roll.fromStr at h
  split at h
  · cases h
  · split at h
    · cases h
    · split at h
      · cases h
      next sides hsides =>
        split at h
        · cases h
        · split at h
          · cases h
          · have hr := Except.ok.inj h
            rw [← hr]
            exact parseRollSides_pos _ sides hsides

/-- C3: for every roll accepted by the dice grammar and every RNG state, a
terminating evaluation yields a result whose total is the sum of the
non-dropped die values plus the roll's modifier, and whose every rolled die
(dropped or not) lies in `[1, sides]`. -/
theorem claim_C3 : ∀ (s : String) (roll : Roll) (fuel : Nat) (g g' : Pcg)
    (res : RollResult), Roll.fromStr s = .ok roll → Roll.eval roll fuel g = some (res, g') →
    (res.total = (res.takenDice.map (fun v => (v : Int))).sum + roll.modifier ∧
     ∀ d ∈ res.dice, 1 ≤ d.val ∧ d.val ≤ roll.sides) := by
  intro s roll fuel g g' res hparse heval
  have hsides := Roll_fromStr_sides_pos s roll hparse
  unfold Roll.eval at heval
  split at heval
  · cases heval
  next dice g1 hall =>
    have hp := Option.some.inj heval
    have hres : (⟨roll, markDice roll.select dice⟩ : RollResult) = res :=
      congrArg Prod.fst hp
    constructor
    · rw [← hres]
      rfl
    · intro d hd
      rw [← hres] at hd
      obtain ⟨d₀, hd₀, hval⟩ := mem_markDice_val roll.select dice d hd
      rw [hval]
      exact rollAll_bounds roll.sides roll.exploding fuel hsides roll.amount g dice g1 hall d₀ hd₀

/-- C3 witness at the concrete roll `"2d6"` and a concrete seed. -/
theorem claim_C3_witness :
    Roll.fromStr "2d6" = .ok ⟨2, 6, false, none, 0⟩ ∧
    Roll.eval ⟨2, 6, false, none, 0⟩ 3 (Pcg.seedFromU64 3) =
      some (⟨⟨2, 6, false, none, 0⟩, [⟨5, false⟩, ⟨4, false⟩]⟩, ⟨5991960103029929709⟩) ∧
    ((⟨⟨2, 6, false, none, 0⟩, [⟨5, false⟩, ⟨4, false⟩]⟩ : RollResult).total =
      ((⟨⟨2, 6, false, none, 0⟩, [⟨5, false⟩, ⟨4, false⟩]⟩ : RollResult).takenDice.map
        (fun v => (v : Int))).sum + (0 : Int) ∧
     ∀ d ∈ (⟨⟨2, 6, false, none, 0⟩, [⟨5, false⟩, ⟨4, false⟩]⟩ : RollResult).dice,
       1 ≤ d.val ∧ d.val ≤ 6) :=
  ⟨by decide, by decide,
    claim_C3 "2d6" ⟨2, 6, false, none, 0⟩ 3 (Pcg.seedFromU64 3) ⟨5991960103029929709⟩
      ⟨⟨2, 6, false, none, 0⟩, [⟨5, false⟩, ⟨4, false⟩]⟩ (by decide) (by decide)⟩

theorem rustDedup_mem : ∀ (l : List Char) (a : Char), a ∈ rustDedup l ↔ a ∈ l := by
  intro l
  induction l with
  | nil => intro a; simp [rustDedup]
  | cons x t ih =>
    cases t with
    | nil => intro a; simp [rustDedup]
    | cons y t' =>
      intro a
      simp only [rustDedup]
      split
      next hxy =>
        rw [ih a, hxy]
        simp only [List.mem_cons]
        constructor
        · intro hm; exact Or.inr hm
        · rintro (h1 | h2)
          · rw [h1]; exact Or.inl rfl
          · exact h2
      next hxy =>
        simp only [List.mem_cons] at ih ⊢
        rw [ih a]

theorem rustDedup_length_le : ∀ l : List Char, (rustDedup l).length ≤ l.length := by
  intro l
  induction l with
  | nil => simp [rustDedup]
  | cons x t ih =>
    cases t with
    | nil => simp [rustDedup]
    | cons y t' =>
      simp only [rustDedup]
      split
      · exact Nat.le_trans ih (Nat.le_succ _)
      · simpa using Nat.succ_le_succ ih

/-- On a sorted list, Rust's consecutive `dedup` keeps the length exactly when
the list has no duplicates at all. -/
theorem rustDedup_len_iff : ∀ l : List Char, l.Sorted (· ≤ ·) →
    ((rustDedup l).length = l.length ↔ l.Nodup) := by
  intro l
  induction l with
  | nil => intro _; simp [rustDedup]
  | cons x t ih =>
    cases t with
    | nil => intro _; simp [rustDedup]
    | cons y t' =>
      intro hs
      have hs' : (y :: t').Sorted (· ≤ ·) := (List.sorted_cons.mp hs).2
      have hxle : ∀ b ∈ y :: t', x ≤ b := (List.sorted_cons.mp hs).1
      simp only [rustDedup]
      split
      next hxy =>
        constructor
        · intro hlen
          exfalso
          have hle := rustDedup_length_le (y :: t')
          simp only [List.length_cons] at hlen hle
          omega
        · intro hnd
          exfalso
          have : x ∈ y :: t' := by rw [hxy]; exact List.mem_cons_self y t'
          exact (List.nodup_cons.mp hnd).1 this
      next hxy =>
        have hiff := ih hs'
        simp only [List.length_cons, Nat.succ.injEq]
        constructor
        · intro hlen
          have hnd' : (y :: t').Nodup := hiff.mp hlen
          refine List.nodup_cons.mpr ⟨?_, hnd'⟩
          intro hmem
          rcases List.mem_cons.mp hmem with h1 | h2
          · exact hxy h1
          · have h3 : y ≤ x := (List.sorted_cons.mp hs').1 x h2
            have h4 : x ≤ y := hxle y (List.mem_cons_self y t')
            exact hxy (le_antisymm h4 h3)
        · intro hnd
          exact hiff.mpr (List.nodup_cons.mp hnd).2

/-- A duplicate flag character always trips the dedup length check. -/
theorem processFlags_err_of_dup (amount : Amount) (flagsRaw : List Char)
    (h : ¬ (flagsRaw.filter (fun c => !isWs c)).Nodup) :
    exceptIsError (processFlags amount flagsRaw) = true := by
  unfold processFlags
  have hperm := List.perm_insertionSort (· ≤ ·) (flagsRaw.filter (fun c => !isWs c))
  have hsorted := List.sorted_insertionSort (· ≤ ·) (flagsRaw.filter (fun c => !isWs c))
  have hnds : ¬ ((flagsRaw.filter (fun c => !isWs c)).insertionSort (· ≤ ·)).Nodup :=
    fun hn => h (hperm.nodup_iff.mp hn)
  have hlen : ((rustDedup ((flagsRaw.filter (fun c => !isWs c)).insertionSort (· ≤ ·))).length =
      ((flagsRaw.filter (fun c => !isWs c)).insertionSort (· ≤ ·)).length) → False :=
    fun he => hnds ((rustDedup_len_iff _ hsorted).mp he)
  rw [if_pos (fun he => hlen he.symm)]
  rfl

/-- Both `e` and `E` present always produce an error. -/
theorem processFlags_err_of_eE (amount : Amount) (flagsRaw : List Char)
    (he : 'e' ∈ flagsRaw.filter (fun c => !isWs c))
    (hE : 'E' ∈ flagsRaw.filter (fun c => !isWs c)) :
    exceptIsError (processFlags amount flagsRaw) = true := by
  simp only [processFlags]
  split
  · rfl
  next hlen =>
    have hperm := List.perm_insertionSort (· ≤ ·) (flagsRaw.filter (fun c => !isWs c))
    have hmem : ∀ c : Char, c ∈ flagsRaw.filter (fun c => !isWs c) →
        (rustDedup ((flagsRaw.filter (fun c => !isWs c)).insertionSort (· ≤ ·))).contains c = true := by
      intro c hc
      have h1 : c ∈ (flagsRaw.filter (fun c => !isWs c)).insertionSort (· ≤ ·) :=
        hperm.mem_iff.mpr hc
      have h2 : c ∈ rustDedup ((flagsRaw.filter (fun c => !isWs c)).insertionSort (· ≤ ·)) :=
        (rustDedup_mem _ c).mpr h1
      exact List.elem_eq_true_of_mem h2
    rw [if_pos]
    · rfl
    · rw [hmem 'e' he, hmem 'E' hE]
      rfl

/-- C8: options parsing is never silent about duplicated flags or about the
conflicting pair `e`/`E`: any input whose flag segment holds a duplicated
character, or holds both `e` and `E`, is rejected; in particular `"3rr"` and
`"3eE"` fail with the source's error messages. -/
theorem claim_C8 :
    (∀ s : String, ¬ (flagsOf s).Nodup → exceptIsError (Options.fromStr s) = true) ∧
    (∀ s : String, 'e' ∈ flagsOf s → 'E' ∈ flagsOf s →
      exceptIsError (Options.fromStr s) = true) ∧
    Options.fromStr "3rr" = .error (.Options "Duplicate flags: r") ∧
    Options.fromStr "3eE" =
      .error (.Options "Flags \x27e\x27 and \x27E\x27 are incompatible") := by
  have hmain : ∀ s : String,
      (¬ (flagsOf s).Nodup ∨ ('e' ∈ flagsOf s ∧ 'E' ∈ flagsOf s)) →
      exceptIsError (Options.fromStr s) = true := by
    intro s hyp
    by_cases h1 : s = "shuffle"
    · exfalso
      rw [h1] at hyp
      revert hyp
      decide
    by_cases h2 : s = "list"
    · exfalso
      rw [h2] at hyp
      revert hyp
      decide
    by_cases h3 : s = "eval"
    · exfalso
      rw [h3] at hyp
      revert hyp
      decide
    unfold Options.fromStr
    rw [if_neg h1, if_neg h2, if_neg h3]
    cases hm : optRegexMatch s.data with
    | none => rfl
    | some p =>
      obtain ⟨amtTok, flagsRaw⟩ := p
      have hflags : flagsOf s = flagsRaw.filter (fun c => !isWs c) := by
        unfold flagsOf flagsOfMatch
        rw [hm]
      cases ha : parseOptAmount amtTok with
      | error e => simp [exceptIsError, ha]
      | ok amount =>
        simp only [ha]
        rw [hflags] at hyp
        rcases hyp with hdup | ⟨he, hE⟩
        · exact processFlags_err_of_dup amount flagsRaw hdup
        · exact processFlags_err_of_eE amount flagsRaw he hE
  exact ⟨fun s h => hmain s (Or.inl h), fun s he hE => hmain s (Or.inr ⟨he, hE⟩),
    by decide, by decide⟩

/-- C8 witness: `"3rr"` has the duplicated flag `r`, and the general theorem
rejects it. -/
theorem claim_C8_witness :
    ¬ (flagsOf "3rr").Nodup ∧ exceptIsError (Options.fromStr "3rr") = true :=
  ⟨by decide, claim_C8.1 "3rr" (by decide)⟩

/-- C10 witness: a concrete finalization of a one-entry statement returns
with an empty stack. -/
theorem claim_C10_witness :
    State.endStmt 4 ⟨["a"], Pcg.seedFromU64 3, Separators.default⟩ Options.default =
      some (.ok ⟨[.Text "a"]⟩, ⟨[], ⟨2088359638719790806⟩, Separators.default⟩) ∧
    (⟨[], ⟨2088359638719790806⟩, Separators.default⟩ : State).stack = [] := by
  refine ⟨by decide, ?_⟩
  exact (claim_C10 4 ⟨["a"], Pcg.seedFromU64 3, Separators.default⟩ Options.default
    (.ok ⟨[.Text "a"]⟩) _ (by decide)).1 rfl ⟨[.Text "a"]⟩ rfl

end RngQuery
